import Mathlib

/-!
Verification development for the cachembed repository (a caching reverse
proxy for OpenAI-style `/v1/embeddings` requests).

The repository contains two sibling implementations of the same design:
a Go implementation (`internal/...`, `handler` package) and a Rails
implementation (`app/models`, `app/controllers`).  Both are embedded
below, each definition translated from its source file:

* `internal/util/encoding.go` — float32 vector codec (`Float32ToBase64`,
  `Base64ToFloat32Slice`),
* `internal/upstream/upstream.go` — input hashing (`InputHashes`,
  `numArrSha1`) and sub-request construction (`PickInputs`),
* the `handler` package's `handleRequest` (cache split / fill / assemble),
* `app/models/embedding_target.rb`, `upstream_client.rb`,
  `embedding_form.rb`, `app/controllers/v1/embeddings_controller.rb`,
* `internal/storage/db.go` — `GetEmbedding`, `StoreEmbedding`,
  `DeleteEntriesBeforeWithSleep`, `GetMaxID`.

Bytes are modelled as `Nat` values below 256, machine words as `Nat`
with explicit `% 2 ^ w` arithmetic, float32/float64 values by their
IEEE-754 bit patterns, and SQL tables as lists of rows.
-/

set_option maxRecDepth 4000

namespace Cachembed

/-! ## Bytes, hex strings, big/little endian helpers -/

/-- The big-endian byte representation of `n` in exactly `k` bytes
(as used by `encoding/binary.BigEndian.PutUint64` and the SHA-1 length
field). -/
def beBytes (k n : Nat) : List Nat :=
  (List.range k).map (fun i => n / 2 ^ (8 * (k - 1 - i)) % 256)

/-- The little-endian 4-byte representation of a 32-bit word, as produced
by `buf.Write([]byte{byte(bits), byte(bits >> 8), byte(bits >> 16),
byte(bits >> 24)})` in `internal/util/encoding.go`. -/
def le4Bytes (n : Nat) : List Nat :=
  [n % 256, n / 2 ^ 8 % 256, n / 2 ^ 16 % 256, n / 2 ^ 24 % 256]

/-- Lowercase hexadecimal digit for a value below 16. -/
def hexDigit (d : Nat) : Char :=
  if d < 10 then Char.ofNat (48 + d) else Char.ofNat (87 + d)

/-- Lowercase hexadecimal rendering of one byte (two digits). -/
def byteHex (b : Nat) : List Char :=
  [hexDigit (b / 16), hexDigit (b % 16)]

/-- Lowercase hexadecimal rendering of a byte list, as produced by Go's
`hex.EncodeToString` and Ruby's `Digest::SHA1.hexdigest`. -/
def bytesToHex (bs : List Nat) : String :=
  ⟨(bs.map byteHex).flatten⟩

example : bytesToHex [0, 171, 255] = "00abff" := by decide

/-! ## SHA-1 (FIPS 180-4), over byte lists -/

/-- 32-bit left rotation of a word below `2 ^ 32`. -/
def rotl (s n : Nat) : Nat :=
  n % 2 ^ (32 - s) * 2 ^ s + n / 2 ^ (32 - s)

/-- Round constant of SHA-1 round `t`. -/
def sha1K (t : Nat) : Nat :=
  if t < 20 then 0x5A827999
  else if t < 40 then 0x6ED9EBA1
  else if t < 60 then 0x8F1BBCDC
  else 0xCA62C1D6

/-- Round function of SHA-1 round `t`. -/
def sha1F (t b c d : Nat) : Nat :=
  if t < 20 then Nat.lor (Nat.land b c) (Nat.land (Nat.xor b 0xFFFFFFFF) d)
  else if t < 40 then Nat.xor (Nat.xor b c) d
  else if t < 60 then Nat.lor (Nat.lor (Nat.land b c) (Nat.land b d)) (Nat.land c d)
  else Nat.xor (Nat.xor b c) d

/-- Message-schedule extension: starting from the block's 16 words,
append words until 80, each `rotl 1` of the XOR of four earlier words. -/
def sha1Extend (ws : List Nat) : Nat → List Nat
  | 0 => ws
  | k + 1 =>
    let n := ws.length
    let w := rotl 1 (Nat.xor (Nat.xor (ws.getD (n - 3) 0) (ws.getD (n - 8) 0))
      (Nat.xor (ws.getD (n - 14) 0) (ws.getD (n - 16) 0)))
    sha1Extend (ws ++ [w]) k

/-- One compression round: state `(a, b, c, d, e)` and the schedule word. -/
def sha1Round (st : Nat × Nat × Nat × Nat × Nat) (t w : Nat) :
    Nat × Nat × Nat × Nat × Nat :=
  let (a, b, c, d, e) := st
  let tmp := (rotl 5 a + sha1F t b c d + e + sha1K t + w) % 2 ^ 32
  (tmp, a, rotl 30 b, c, d)

/-- Process one 64-byte block given the running hash state `h0..h4`. -/
def sha1Block (h : Nat × Nat × Nat × Nat × Nat) (block : List Nat) :
    Nat × Nat × Nat × Nat × Nat :=
  let words16 := (List.range 16).map (fun i =>
    block.getD (4 * i) 0 * 2 ^ 24 + block.getD (4 * i + 1) 0 * 2 ^ 16 +
    block.getD (4 * i + 2) 0 * 2 ^ 8 + block.getD (4 * i + 3) 0)
  let ws := sha1Extend words16 64
  let (h0, h1, h2, h3, h4) := h
  let (a, b, c, d, e) := (List.range 80).foldl
    (fun st t => sha1Round st t (ws.getD t 0)) (h0, h1, h2, h3, h4)
  ((h0 + a) % 2 ^ 32, (h1 + b) % 2 ^ 32, (h2 + c) % 2 ^ 32,
   (h3 + d) % 2 ^ 32, (h4 + e) % 2 ^ 32)

/-- Split a list into chunks of `k` elements; the fuel argument (the list
length at the outer call) makes the recursion structural so that the
kernel can evaluate it. -/
def chunksOfAux (k : Nat) : Nat → List Nat → List (List Nat)
  | 0, _ => []
  | _, [] => []
  | fuel + 1, x :: xs => (x :: xs).take k :: chunksOfAux k fuel ((x :: xs).drop k)

/-- Split a list into chunks of `k` elements (`k > 0` in all uses). -/
def chunksOf (k : Nat) (l : List Nat) : List (List Nat) :=
  chunksOfAux k l.length l

/-- Merkle–Damgård padding of SHA-1: `0x80`, zeros to 56 mod 64, then the
bit length as 8 big-endian bytes. -/
def sha1Pad (msg : List Nat) : List Nat :=
  msg ++ [0x80] ++ List.replicate ((119 - msg.length % 64) % 64) 0 ++
    beBytes 8 (8 * msg.length)

/-- SHA-1 digest (20 bytes) of a byte list. -/
def sha1Bytes (msg : List Nat) : List Nat :=
  let (h0, h1, h2, h3, h4) := (chunksOf 64 (sha1Pad msg)).foldl sha1Block
    (0x67452301, 0xEFCDAB89, 0x98BADCFE, 0x10325476, 0xC3D2E1F0)
  beBytes 4 h0 ++ beBytes 4 h1 ++ beBytes 4 h2 ++ beBytes 4 h3 ++ beBytes 4 h4

/-- Lowercase hexadecimal SHA-1 of a byte list, as produced by
`hex.EncodeToString(sha1.Sum(...))` in Go and `Digest::SHA1.hexdigest`
in Ruby. -/
def sha1Hex (msg : List Nat) : String :=
  bytesToHex (sha1Bytes msg)

/-! ## UTF-8 encoding and decimal rendering -/

/-- UTF-8 encoding of one Unicode scalar value. -/
def utf8EncodeChar (c : Char) : List Nat :=
  let n := c.toNat
  if n < 0x80 then [n]
  else if n < 0x800 then [0xC0 + n / 64, 0x80 + n % 64]
  else if n < 0x10000 then
    [0xE0 + n / 4096, 0x80 + n / 64 % 64, 0x80 + n % 64]
  else
    [0xF0 + n / 262144, 0x80 + n / 4096 % 64, 0x80 + n / 64 % 64, 0x80 + n % 64]

/-- UTF-8 byte sequence of a string (`[]byte(s)` in Go, `String#bytes`
in Ruby). -/
def utf8Bytes (s : String) : List Nat :=
  (s.data.map utf8EncodeChar).flatten

/-- Decimal digits of a natural number; the extra fuel argument makes the
recursion structural. -/
def natDigits : Nat → Nat → List Char
  | 0, _ => []
  | fuel + 1, n =>
    if n < 10 then [Char.ofNat (48 + n)]
    else natDigits fuel (n / 10) ++ [Char.ofNat (48 + n % 10)]

/-- Decimal string of a natural number. -/
def natDecimal (n : Nat) : String :=
  ⟨natDigits (n + 1) n⟩

/-- Decimal string of an integer (Ruby `Integer#to_s`). -/
def intDecimal : Int → String
  | Int.ofNat n => natDecimal n
  | Int.negSucc n => "-" ++ natDecimal (n + 1)

example : intDecimal 123 = "123" := by decide
example : intDecimal (-7) = "-7" := by decide

example : sha1Hex (utf8Bytes ("A")) = "6dcd4ce23d88e2ee9568ba546c007c63d9131c1b" := by decide

/-! ## Standard base64 (RFC 4648 with padding, Go `encoding/base64.StdEncoding`) -/

/-- The standard base64 alphabet. -/
def b64Alphabet : List Char :=
  "ABCDEFGHIJKLMNOPQRSTUVWXYZabcdefghijklmnopqrstuvwxyz0123456789+/".data

/-- Character for a six-bit value. -/
def sixbitChar (n : Nat) : Char :=
  b64Alphabet.getD n 'A'

/-- Six-bit value of an alphabet character; `none` for a character outside
the alphabet (Go's decoder reports `CorruptInputError` there). -/
def b64CharVal (c : Char) : Option Nat :=
  if c ∈ b64Alphabet then some (b64Alphabet.indexOf c) else none

/-- Base64 encoding of a byte list, chunked in threes with `=` padding,
as produced by `base64.StdEncoding.EncodeToString`. -/
def b64EncodeChunks : List Nat → List Char
  | [] => []
  | [b1] => [sixbitChar (b1 / 4), sixbitChar (b1 % 4 * 16), '=', '=']
  | [b1, b2] =>
    [sixbitChar (b1 / 4), sixbitChar (b1 % 4 * 16 + b2 / 16),
     sixbitChar (b2 % 16 * 4), '=']
  | b1 :: b2 :: b3 :: rest =>
    sixbitChar (b1 / 4) :: sixbitChar (b1 % 4 * 16 + b2 / 16) ::
    sixbitChar (b2 % 16 * 4 + b3 / 64) :: sixbitChar (b3 % 64) ::
    b64EncodeChunks rest

/-- Base64 encoding of a byte list as a string. -/
def base64Encode (bs : List Nat) : String :=
  ⟨b64EncodeChunks bs⟩

/-- Base64 decoding of a character list in four-character quantums;
padding is accepted only in the final quantum, exactly as Go's
`base64.StdEncoding.DecodeString` does. -/
def b64DecodeChunks : List Char → Option (List Nat)
  | [] => some []
  | c1 :: c2 :: c3 :: c4 :: rest =>
    match b64CharVal c1, b64CharVal c2 with
    | some v1, some v2 =>
      if c3 = '=' then
        if c4 = '=' ∧ rest = [] then some [v1 * 4 + v2 / 16] else none
      else
        match b64CharVal c3 with
        | some v3 =>
          if c4 = '=' then
            if rest = [] then some [v1 * 4 + v2 / 16, v2 % 16 * 16 + v3 / 4]
            else none
          else
            match b64CharVal c4, b64DecodeChunks rest with
            | some v4, some bs =>
              some ((v1 * 4 + v2 / 16) :: (v2 % 16 * 16 + v3 / 4) ::
                (v3 % 4 * 64 + v4) :: bs)
            | _, _ => none
        | none => none
    | _, _ => none
  | _ => none

/-- Base64 decoding of a string to a byte list; `none` models the error
return of `base64.StdEncoding.DecodeString`. -/
def base64Decode (s : String) : Option (List Nat) :=
  b64DecodeChunks s.data

example : base64Encode [77, 97, 110] = "TWFu" := by decide
example : base64Decode ("TWE=") = some [77, 97] := by decide
example : base64Decode ("TQ==") = some [77] := by decide
example : base64Decode ("!bad") = none := by decide

/-! ## Float32 vector codec (`internal/util/encoding.go`)

Float32 values are represented by their IEEE-754 bit patterns
(naturals below `2 ^ 32`); `math.Float32bits` / `math.Float32frombits`
are bit-preserving, so the Go codec is exactly the byte-level codec
below. -/

/-- Reassemble little-endian 4-byte groups into 32-bit words, as the
loop in `Base64ToFloat32Slice` does (`uint32(data[i]) | ... << 24`). -/
def leWords : List Nat → List Nat
  | b0 :: b1 :: b2 :: b3 :: rest =>
    (b0 + b1 * 2 ^ 8 + b2 * 2 ^ 16 + b3 * 2 ^ 24) :: leWords rest
  | _ => []

/-- Go `util.Float32ToBase64`: serialize each float32 as its little-endian
4-byte IEEE-754 representation and base64 the concatenation. -/
def Float32ToBase64 (values : List Nat) : String :=
  base64Encode ((values.map le4Bytes).flatten)

/-- Go `util.Base64ToFloat32Slice`: base64-decode (propagating its
error), fail when the decoded byte length is not a multiple of 4, else
reassemble little-endian float32 words. -/
def Base64ToFloat32Slice (b64 : String) : Option (List Nat) :=
  (base64Decode b64).bind (fun data =>
    if data.length % 4 = 0 then some (leWords data) else none)

/-- Value of a finite float32 bit pattern as a rational number (sign,
biased exponent, mantissa per IEEE-754 binary32; exponent 255 patterns
are infinities/NaNs and do not occur in the claims). -/
def f32Val (bits : Nat) : ℚ :=
  let s : Nat := bits / 2 ^ 31
  let e : Nat := bits / 2 ^ 23 % 256
  let m : Nat := bits % 2 ^ 23
  let mag : ℚ :=
    if e = 0 then (m : ℚ) * (2 : ℚ) ^ (-149 : ℤ)
    else ((2 ^ 23 + m : Nat) : ℚ) * (2 : ℚ) ^ ((e : ℤ) - 150)
  if s = 1 then -mag else mag

example : Float32ToBase64 [0x3E000000] = "AAAAPg==" := by decide
example : f32Val 0x3E000000 = 1 / 8 := by
  norm_num [f32Val]

/-! ## Float64 bit patterns for integral values

JSON numbers arrive in the Go implementation as `float64`; token values
are small integers, represented exactly.  `f64bitsOfNat n` is
`math.Float64bits(float64(n))` for `n < 2 ^ 53`. -/

/-- Floor of the base-2 logarithm, by fuel-based repeated halving (the
kernel cannot evaluate well-founded recursions such as `Nat.log2`). -/
def log2Fuel : Nat → Nat → Nat
  | 0, _ => 0
  | fuel + 1, n => if n < 2 then 0 else log2Fuel fuel (n / 2) + 1

/-- IEEE-754 binary64 bit pattern of the natural number `n < 2 ^ 53`. -/
def f64bitsOfNat (n : Nat) : Nat :=
  if n = 0 then 0
  else (1023 + log2Fuel n n) * 2 ^ 52 + (n * 2 ^ 52 / 2 ^ log2Fuel n n - 2 ^ 52)

example : f64bitsOfNat 1 = 0x3FF0000000000000 := by decide
example : f64bitsOfNat 2 = 0x4000000000000000 := by decide
example : f64bitsOfNat 3 = 0x4008000000000000 := by decide

/-! ## Go upstream package (`internal/upstream/upstream.go`)

The dynamically typed `EmbeddingRequest.Input` field (`interface{}`)
takes exactly four shapes after the handler's input validation:
a string, a `[]float64` token sequence, a `[]string`, or a
`[][]float64`.  Number elements carry float64 bit patterns. -/

/-- The four runtime shapes of `EmbeddingRequest.Input`. -/
inductive GoInput
  | str (s : String)
  | nums (ns : List Nat)
  | strs (ss : List String)
  | numss (nss : List (List Nat))
  deriving DecidableEq

/-- Go `numArrSha1`: SHA-1 over the concatenation of the 8-byte
big-endian `math.Float64bits` encodings of the numbers. -/
def numArrSha1 (nums : List Nat) : List Nat :=
  sha1Bytes ((nums.map (beBytes 8)).flatten)

/-- Go `EmbeddingRequest.InputHashes` / `inputHashBytes`: one lowercase
hex SHA-1 per logical input; an empty `[]float64` input is an error. -/
def InputHashes : GoInput → Option (List String)
  | .str s => some [sha1Hex (utf8Bytes s)]
  | .nums ns =>
    if ns.isEmpty then none else some [bytesToHex (numArrSha1 ns)]
  | .strs ss => some (ss.map (fun s => sha1Hex (utf8Bytes s)))
  | .numss nss => some (nss.map (fun ns => bytesToHex (numArrSha1 ns)))

/-- Select the elements of `xs` at the given indices, failing on an
out-of-range index (the `target >= len` checks in `PickInputs`). -/
def pickList (xs : List α) : List Nat → Option (List α)
  | [] => some []
  | t :: ts =>
    match xs.get? t, pickList xs ts with
    | some x, some rest => some (x :: rest)
    | _, _ => none

/-- Go `EmbeddingRequest.PickInputs`: rebuild a sub-request input holding
only the targeted logical inputs, in target order, in the original
shape; single-input shapes accept only the target list `[0]`. -/
def PickInputs : GoInput → List Nat → Option GoInput
  | .str s, targets => if targets = [0] then some (.str s) else none
  | .nums ns, targets => if targets = [0] then some (.nums ns) else none
  | .strs ss, targets => (pickList ss targets).map .strs
  | .numss nss, targets => (pickList nss targets).map .numss

example :
    PickInputs (.strs ["a", "b", "c"]) [0, 2] = some (.strs ["a", "c"]) := by
  decide
example : PickInputs (.str ("x")) [1] = none := by decide

/-! ## The Go request handler core (package `handler`, `handleRequest`)

Model of the cache-split / fill / assemble phase of `handleRequest`
(the part after body validation): one `GetEmbedding` per input hash, a
single upstream call carrying `PickInputs` of the missed indices when
any input missed, placement of each returned embedding at its original
position, and the final usage/response assembly.

The upstream's successful response is a parameter (`upstreamData`,
`upstreamUsage`); the outcome records every upstream request issued
together with the `encoding_format` it carried, which `handleRequest`
copies from the client request (`EncodingFormat: req.EncodingFormat`).
`StoreEmbedding` calls on the fill path only log failures and do not
change the response, so they are not tracked here. -/

/-- Runtime value of the `Embedding interface{}` field of
`EmbeddingData`: a `[]float32` (bit patterns), a base64 string, or the
zero value `nil`. -/
inductive EmbVal
  | floats (bits : List Nat)
  | b64 (s : String)
  | nil
  deriving DecidableEq

/-- Go `upstream.EmbeddingData`. -/
structure EmbeddingData where
  object : String
  embedding : EmbVal
  index : Nat
  deriving DecidableEq

/-- Go `upstream.Usage`. -/
structure Usage where
  promptTokens : Nat
  totalTokens : Nat
  deriving DecidableEq

/-- Zero value of `EmbeddingData` (`upstream.EmbeddingData{}`). -/
def EmbeddingData.zero : EmbeddingData :=
  ⟨"", .nil, 0⟩

/-- An upstream request as issued by the fill phase: the picked input,
the model, and the `encoding_format` the handler serialized. -/
structure UpstreamCall where
  input : GoInput
  model : String
  encodingFormat : String
  deriving DecidableEq

/-- Result of the handler core: response data entries, reported usage,
and the upstream requests issued. -/
structure Outcome where
  data : List EmbeddingData
  usage : Usage
  upstreamCalls : List UpstreamCall
  deriving DecidableEq

/-- The indices of the inputs whose cache lookup missed, in input order
(`missedIndexes` accumulation in `handleRequest`). -/
def missedIndexesOf (cache : String → Option (List Nat)) (hashes : List String) :
    List Nat :=
  hashes.enum.filterMap (fun p => if (cache p.2).isSome then none else some p.1)

/-- Initial response array: cache hits are filled with
`{Object: "embedding", Embedding: cache content, Index: i}`, misses stay
at the zero value. -/
def initialDatas (cache : String → Option (List Nat)) (hashes : List String) :
    List EmbeddingData :=
  hashes.enum.map (fun p =>
    match cache p.2 with
    | some v => ⟨"embedding", .floats v, p.1⟩
    | none => EmbeddingData.zero)

/-- Placement loop of the fill phase: the `i`-th returned embedding is
written at position `missed[i]` of the response array, kept verbatim
(including its upstream-assigned `Index` field). -/
def fillDatas (missed : List Nat) (upstreamData : List EmbeddingData)
    (init : List EmbeddingData) : List EmbeddingData :=
  upstreamData.enum.foldl (fun acc p =>
    match missed.get? p.1 with
    | some j => acc.set j p.2
    | none => acc) init

/-- Go `convertToFloat32Slice` applied to an `EmbeddingData` struct
value: the type switch has cases only for `[]float32`, `[]float64` and
`[]interface{}`, so a struct always falls to `default` and yields
`(nil, false)`.  `handleRequest` passes the struct `data` (not
`data.Embedding`) in its base64 re-encoding loop. -/
def convertStructToFloat32 (_ : EmbeddingData) : Option (List Nat) :=
  none

/-- The tail of `handleRequest`: the base64 re-encoding loop (which,
passing the struct to `convertToFloat32Slice`, never changes an entry)
and the single-input special case that rebuilds `response.Data` with
only `Object` and `Embedding` set (`Index` left at its zero value). -/
def postProcess (fmt : String) (hashes : List String)
    (datas : List EmbeddingData) : List EmbeddingData :=
  let reencoded :=
    if fmt = "base64" then
      datas.map (fun d =>
        match convertStructToFloat32 d with
        | some v => { d with embedding := .b64 (Float32ToBase64 v) }
        | none => d)
    else datas
  if hashes.length = 1 then
    [⟨"embedding", (reencoded.headD EmbeddingData.zero).embedding, 0⟩]
  else reencoded

/-- The handler core of `handleRequest`, from the `responseEmbeddingDatas`
allocation to the final `response` value.  `none` models an error return
or a panic (failed `InputHashes` or `PickInputs`, or more upstream
embeddings than missed indices, which would make `missedIndexes[i]`
panic). -/
def handleRequestCore (input : GoInput) (model fmt : String)
    (cache : String → Option (List Nat))
    (upstreamData : List EmbeddingData) (upstreamUsage : Usage) :
    Option Outcome :=
  match InputHashes input with
  | none => none
  | some hashes =>
    let missed := missedIndexesOf cache hashes
    let init := initialDatas cache hashes
    let filled : Option (List EmbeddingData × Usage × List UpstreamCall) :=
      if missed.isEmpty then
        some (init, ⟨0, 0⟩, [])
      else
        match PickInputs input missed with
        | none => none
        | some picked =>
          if upstreamData.length > missed.length then none
          else some (fillDatas missed upstreamData init, upstreamUsage,
            [⟨picked, model, fmt⟩])
    match filled with
    | none => none
    | some (datas, usage, calls) =>
      some ⟨postProcess fmt hashes datas, usage, calls⟩

/-! ## The Rails application (`app/models`, `app/controllers`)

`EmbeddingTarget` wraps one logical input (a string or an integer token
sequence); `EmbeddingForm` runs the lookup/fill/assemble flow;
`UpstreamClient#request_body` builds the upstream POST body. -/

namespace RailsApp

/-- A JSON value, as far as the embedding request/response bodies need. -/
inductive Json
  | str (s : String)
  | int (n : Int)
  | arr (xs : List Json)

/-- Ruby `v.is_a?(Integer)` on a JSON value. -/
def isInt : Json → Bool
  | .int _ => true
  | _ => false

/-- Ruby `v.is_a?(String)` on a JSON value. -/
def isStr : Json → Bool
  | .str _ => true
  | _ => false

/-- Ruby `v.is_a?(Array) && v.all? { |j| j.is_a?(Integer) }`. -/
def isIntArray : Json → Bool
  | .arr ys => ys.all isInt
  | _ => false

/-- The integer carried by a JSON value, when it is one. -/
def asInt : Json → Option Int
  | .int n => some n
  | _ => none

/-- Ruby `EmbeddingTarget`: `@value` is a `String` or an `Array` of
`Integer` tokens. -/
inductive RTarget
  | str (s : String)
  | tokens (ts : List Int)
  deriving DecidableEq

/-- Ruby `EmbeddingTarget#sha1sum_source`: the string itself, or the
tokens joined with a comma (`@value.join(",")`). -/
def sha1sumSource : RTarget → String
  | .str s => s
  | .tokens ts => String.intercalate (",") (ts.map intDecimal)

/-- Ruby `EmbeddingTarget#sha1sum`: `Digest::SHA1.hexdigest` of the
source. -/
def sha1sum (t : RTarget) : String :=
  sha1Hex (utf8Bytes (sha1sumSource t))

/-- Ruby `EmbeddingTarget#to_hash` (returns `@value`), rendered as the
JSON value it serializes to. -/
def targetToHash : RTarget → Json
  | .str s => .str s
  | .tokens ts => .arr (ts.map .int)

/-- Ruby `EmbeddingTarget.build_targets!`: classify the request `input`
into logical inputs, testing the three array cases exactly as the
source chains its `elsif`s (an empty array passes the first `all?` and
becomes a single empty token sequence); any other shape raises. -/
def buildTargets : Json → Option (List RTarget)
  | .str s => some [.str s]
  | .arr xs =>
    if xs.all isInt then
      some [.tokens (xs.filterMap asInt)]
    else if xs.all isStr then
      some (xs.filterMap (fun x => match x with
        | .str s => some (RTarget.str s)
        | _ => none))
    else if xs.all isIntArray then
      some (xs.filterMap (fun x => match x with
        | .arr ys => some (RTarget.tokens (ys.filterMap asInt))
        | _ => none))
    else none
  | _ => none

/-- Ruby `UpstreamClient#request_body`: model, the missed targets'
values as a JSON array, `encoding_format` hardcoded to `"base64"`, and
`dimensions` only when present. -/
structure UpstreamBody where
  model : String
  input : Json
  encodingFormat : String
  dimensions : Option Int

/-- Build the upstream request body from the targets handed to
`UpstreamClient.new` (`input: @targets.map(&:to_hash)`,
`encoding_format: "base64"`). -/
def requestBody (model : String) (dimensions : Option Int)
    (targets : List RTarget) : UpstreamBody :=
  ⟨model, .arr (targets.map targetToHash), "base64", dimensions⟩

/-- A cached vector's raw bytes (`VectorCache#content`). -/
abbrev RVector := List Nat

/-- Ruby `VectorCache#content_with(format)`: base64 of the raw bytes for
`"base64"`, else the little-endian float32 array (`unpack("e*")`). -/
def contentWith (format : String) (content : RVector) : EmbVal :=
  if format = "base64" then .b64 (base64Encode content)
  else .floats (leWords content)

/-- Overlay of `@vector_by_sha1sum` assignments executed left to right
(a later assignment to the same hash overwrites an earlier one). -/
def overlay (base : String → Option RVector) :
    List (String × RVector) → (String → Option RVector)
  | [] => base
  | (h, v) :: rest => overlay (fun x => if x = h then some v else base x) rest

/-- One assembled response entry of `EmbeddingForm#do_embedding`. -/
structure RDataEntry where
  object : String
  index : Nat
  embedding : EmbVal
  deriving DecidableEq

/-- Result of the Rails flow: response data, usage, upstream calls. -/
structure ROutcome where
  data : List RDataEntry
  usage : Usage
  upstreamCalls : List UpstreamBody

/-- The assembly step of `EmbeddingForm#do_embedding`: one data entry
per target in target order, `index:` equal to the target's position,
`embedding:` the vector found for the target's `sha1sum` rendered in
the client's format (`content_with`). -/
def assembleData (fmt : String) (finalMap : String → Option RVector)
    (targets : List RTarget) : Option (List RDataEntry) :=
  let entries := targets.enum.map (fun p =>
    (finalMap (sha1sum p.2)).map (fun v =>
      RDataEntry.mk ("embedding") p.1 (contentWith fmt v)))
  if entries.all Option.isSome then some entries.reduceOption else none

/-- Ruby `EmbeddingForm#do_embedding` together with
`#load_vectors_from_db` and `#load_vectors_from_upstream`: fill
`@vector_by_sha1sum` from the cache (keyed by each target's `sha1sum`;
model and dimensions are fixed within one request); return early with
usage `{0, 0}` when no target stayed unloaded; otherwise build
`UpstreamClient` with exactly the unloaded targets, post once, assign
one decoded vector per unloaded target positionally
(`save_response_to_vector!`), and take the upstream usage.  `none`
models the `NoMethodError` raised when a target's vector is still
missing at assembly time. -/
def doEmbedding (model : String) (dimensions : Option Int) (fmt : String)
    (targets : List RTarget) (cache : String → Option RVector)
    (upstreamVectors : List RVector) (upstreamUsage : Usage) :
    Option ROutcome :=
  let unloaded := targets.filter (fun t => (cache (sha1sum t)).isNone)
  if unloaded.isEmpty then
    (assembleData fmt cache targets).map (fun ds => ⟨ds, ⟨0, 0⟩, []⟩)
  else
    (assembleData fmt
      (overlay cache ((unloaded.map sha1sum).zip upstreamVectors))
      targets).map (fun ds =>
        ⟨ds, upstreamUsage, [requestBody model dimensions unloaded]⟩)

/-- Ruby `EmbeddingForm`'s `dimensions` validation (line 10):
`numericality: { only_integer: true, greater_than: 1, less_than: 10000 },
allow_nil: true`. -/
def dimensionsValid : Option Int → Bool
  | none => true
  | some d => decide (1 < d) && decide (d < 10000)

/-- Allowed model list (`EmbeddingForm::MODEL_NAMES`). -/
def modelNames : List String :=
  ["text-embedding-ada-002", "text-embedding-3-small", "text-embedding-3-large"]

/-- Ruby `EmbeddingForm#valid?` as declared by its `validates` calls:
model present and allowed, dimensions as above, `encoding_format` in
`float`/`base64` when present. -/
def formValid (model : String) (dimensions : Option Int)
    (fmt : Option String) : Bool :=
  decide (model ∈ modelNames) && dimensionsValid dimensions &&
    (match fmt with
     | none => true
     | some f => decide (f = "float") || decide (f = "base64"))

/-- Responses of `V1::EmbeddingsController#create`. -/
inductive ControllerResponse
  | ok (out : ROutcome)
  | unauthorized
  | badRequest
  | internalError

/-- Ruby `V1::EmbeddingsController#create`: after the `require_api_key`
filter, the action constructs the form and calls `do_embedding`
directly — it never calls `valid?`, so the declared validations (model,
dimensions, encoding_format) are never consulted.  A malformed `input`
raises from `build_targets!` (a `RuntimeError`, answered as a 500 since
only `InvalidInputError` is rescued); every other request proceeds to
the lookup/fill flow. -/
def createAction (apiKey : Option String) (model : String)
    (dimensions : Option Int) (fmt : Option String) (input : Json)
    (cache : String → Option RVector) (upstreamVectors : List RVector)
    (upstreamUsage : Usage) : ControllerResponse :=
  match apiKey with
  | none => .unauthorized
  | some _ =>
    match buildTargets input with
    | none => .internalError
    | some targets =>
      match doEmbedding model dimensions
        ((fmt.getD ("float")))
        targets cache upstreamVectors upstreamUsage with
      | some out => .ok out
      | none => .internalError

/-- Observation of a controller response: `some n` when the action
rendered a 200 response after issuing `n` upstream calls, `none` for
any error response. -/
def okUpstreamCount : ControllerResponse → Option Nat
  | .ok out => some out.upstreamCalls.length
  | _ => none

end RailsApp

/-! ## The Go cache store (`internal/storage/db.go`)

The `embeddings` table is a list of rows; the unique index on
`(input_hash, model, dimension)` is the invariant `TableWF`.  SQL
statements act row-wise: `SELECT ... WHERE` is `List.find?`,
`UPDATE`/`ON CONFLICT DO UPDATE` is `List.map` over matching rows,
`DELETE` is `List.filter`, and the auto-increment id is `max + 1`.
Timestamps are integers (UTC instants). -/

namespace Storage

/-- One row of the `embeddings` table. -/
structure Row where
  id : Int
  inputHash : String
  model : String
  dimension : Int
  embeddingData : String
  createdAt : Int
  lastAccessedAt : Int
  deriving DecidableEq

/-- The `embeddings` table. -/
abbrev Table := List Row

/-- The `WHERE input_hash = $1 AND model = $2 AND dimension = $3` match. -/
def keyMatch (h m : String) (d : Int) (r : Row) : Bool :=
  r.inputHash == h && r.model == m && r.dimension == d

/-- Unique-index invariant: no two rows share `(input_hash, model,
dimension)`. -/
def TableWF (t : Table) : Prop :=
  t.Pairwise (fun r1 r2 =>
    ¬(r1.inputHash = r2.inputHash ∧ r1.model = r2.model ∧
      r1.dimension = r2.dimension))

/-- Go `GetMaxID` (`SELECT COALESCE(MAX(id), 0) FROM embeddings`). -/
def GetMaxID (t : Table) : Int :=
  t.foldl (fun acc r => max acc r.id) 0

/-- The `SELECT embedding_data` of `GetEmbedding`: content of the first
matching row, `none` for `sql.ErrNoRows` (reported by the Go function
as an empty content with a nil error — absent, not an error). -/
def selectEmbedding (t : Table) (h m : String) (d : Int) : Option String :=
  (t.find? (keyMatch h m d)).map (fun r => r.embeddingData)

/-- The `UPDATE embeddings SET last_accessed_at = $1` statement run on a
hit. -/
def bumpLastAccessed (t : Table) (h m : String) (d : Int) (now : Int) :
    Table :=
  t.map (fun r => if keyMatch h m d r then { r with lastAccessedAt := now }
    else r)

/-- Go `DB.GetEmbedding`: point lookup, returning the stored base64
content and the table after the `last_accessed_at` bump (the bump only
happens on a hit). -/
def GetEmbedding (t : Table) (h m : String) (d : Int) (now : Int) :
    Option String × Table :=
  match selectEmbedding t h m d with
  | none => (none, t)
  | some c => (some c, bumpLastAccessed t h m d now)

/-- Go `DB.StoreEmbedding` (`INSERT ... ON CONFLICT(input_hash, model,
dimension) DO UPDATE SET embedding_data = ..., last_accessed_at = ...`):
update the conflicting row when one exists, else insert a fresh row
with the next auto-increment id. -/
def StoreEmbedding (t : Table) (h m : String) (d : Int) (content : String)
    (now : Int) : Table :=
  if t.any (keyMatch h m d) then
    t.map (fun r => if keyMatch h m d r then
      { r with embeddingData := content, lastAccessedAt := now } else r)
  else
    t ++ [⟨GetMaxID t + 1, h, m, d, content, now, now⟩]

/-- The GC delete predicate of one batch: `id >= $1 AND id < $2 AND
last_accessed_at < $3`. -/
def gcDead (lo hi thr : Int) (r : Row) : Bool :=
  decide (lo ≤ r.id) && decide (r.id < hi) && decide (r.lastAccessedAt < thr)

/-- One `DELETE FROM embeddings WHERE id >= lo AND id < hi AND
last_accessed_at < thr` statement. -/
def deleteBatch (t : Table) (lo hi thr : Int) : Table :=
  t.filter (fun r => !gcDead lo hi thr r)

/-- The batching loop of `DeleteEntriesBeforeWithSleep`, made total with
a fuel argument: one recursive step per `for currentID < endID`
iteration; `none` when the fuel runs out before the loop exits (around
the loop the Go function has no bound of its own).  The result carries
the final table and the number of iterations executed.  The
`db.sleeper.Sleep(sleep)` call between batches does not change the
table and is not modelled. -/
def deleteLoop (batchSize thr endID : Int) (fuel : Nat) (t : Table)
    (currentID : Int) (iters : Nat) : Option (Table × Nat) :=
  if currentID < endID then
    match fuel with
    | 0 => none
    | fuel + 1 =>
      let batchEndID :=
        if currentID + batchSize - 1 ≥ endID then endID - 1
        else currentID + batchSize - 1
      let t' := deleteBatch t currentID (batchEndID + 1) thr
      deleteLoop batchSize thr endID fuel t' (batchEndID + 1) (iters + 1)
  else some (t, iters)

/-- Go `DB.DeleteEntriesBeforeWithSleep` with threshold instant `thr`
(`time.Now().UTC().Add(-threshold)`), run with enough fuel for the
well-behaved case (`batchSize ≥ 1`). -/
def DeleteEntriesBefore (t : Table) (thr startID endID batchSize : Int) :
    Option (Table × Nat) :=
  deleteLoop batchSize thr endID (endID - startID).toNat t startID 0

end Storage

/-- The GC-range scenario of the spec: rows 1–10, rows 1–5 last accessed
at instant 0, rows 6–10 at instant 100. -/
def gcScenarioTable : Storage.Table :=
  (List.range 10).map (fun i =>
    ⟨(i : Int) + 1, "h", "m", 0, "c", 0, if i < 5 then 0 else 100⟩)

/-! ## Helper lemmas -/

/-- Two booleans agreeing as propositions are equal. -/
theorem bool_eq_of_iff {a b : Bool} (h : a = true ↔ b = true) : a = b := by
  cases a <;> cases b <;> simp_all

/-- Splitting a GC id range at an interior point: a row survives both
half-range deletions exactly when it survives the full-range deletion. -/
theorem gcDead_union (lo mid hi thr : Int) (h1 : lo ≤ mid) (h2 : mid ≤ hi)
    (r : Storage.Row) :
    (!Storage.gcDead lo mid thr r && !Storage.gcDead mid hi thr r) =
      !Storage.gcDead lo hi thr r := by
  apply bool_eq_of_iff
  simp only [Storage.gcDead, Bool.and_eq_true, Bool.not_eq_true',
    Bool.and_eq_false_iff, decide_eq_true_eq, decide_eq_false_iff_not]
  omega

/-- One step of the ceiling division `⌈n / K⌉` as the GC loop advances
the cursor by `min K n`. -/
theorem ceil_step (n K : Nat) (hK : 1 ≤ K) (hn : 1 ≤ n) :
    (n - K + (K - 1)) / K + 1 = (n + (K - 1)) / K := by
  rcases le_or_lt n K with hle | hlt
  · have h0 : n - K = 0 := Nat.sub_eq_zero_of_le hle
    rw [h0, Nat.zero_add, Nat.div_eq_of_lt (by omega)]
    have : n + (K - 1) = (n - 1) + K := by omega
    rw [this, Nat.add_div_right _ (by omega), Nat.div_eq_of_lt (by omega)]
  · have hnum : n - K + (K - 1) = n - 1 := by omega
    have hnum2 : n + (K - 1) = (n - 1) + K := by omega
    rw [hnum, hnum2, Nat.add_div_right _ (by omega)]

/-- Unfolding of one active iteration of the GC loop. -/
theorem deleteLoop_succ (B thr b : Int) (fuel : Nat) (t : Storage.Table)
    (cur : Int) (i : Nat) (h : cur < b) :
    Storage.deleteLoop B thr b (fuel + 1) t cur i =
      Storage.deleteLoop B thr b fuel
        (Storage.deleteBatch t cur
          ((if cur + B - 1 ≥ b then b - 1 else cur + B - 1) + 1) thr)
        ((if cur + B - 1 ≥ b then b - 1 else cur + B - 1) + 1) (i + 1) := by
  rw [Storage.deleteLoop.eq_def, if_pos h]

/-- The GC loop returns as soon as the cursor reaches the end of the
range. -/
theorem deleteLoop_stop (B thr b : Int) (fuel : Nat) (t : Storage.Table)
    (cur : Int) (i : Nat) (h : ¬cur < b) :
    Storage.deleteLoop B thr b fuel t cur i = some (t, i) := by
  rw [Storage.deleteLoop.eq_def, if_neg h]

/-- With the loop still active and no fuel left, the loop model reports
exhaustion. -/
theorem deleteLoop_zero (B thr b : Int) (t : Storage.Table) (cur : Int)
    (i : Nat) (h : cur < b) :
    Storage.deleteLoop B thr b 0 t cur i = none := by
  rw [Storage.deleteLoop.eq_def, if_pos h]

/-- Rows at or past the end cursor are never GC-dead. -/
theorem filter_gcDead_stop (t : Storage.Table) (cur b thr : Int)
    (h : b ≤ cur) :
    t.filter (fun r => !Storage.gcDead cur b thr r) = t := by
  apply List.filter_eq_self.mpr
  intro r _
  simp only [Storage.gcDead, Bool.not_eq_true', Bool.and_eq_false_iff,
    decide_eq_false_iff_not]
  omega

/-- Full characterization of the GC batching loop for a positive batch
size: with fuel at least `end - cursor` it terminates, the final table
is the single-pass range filter, and the iteration count is
`⌈(end - cursor) / batchSize⌉`. -/
theorem deleteLoop_spec (B thr b : Int) (hB : 1 ≤ B) :
    ∀ (fuel : Nat) (cur : Int) (t : Storage.Table) (i : Nat),
      (b - cur).toNat ≤ fuel →
      Storage.deleteLoop B thr b fuel t cur i =
        some (t.filter (fun r => !Storage.gcDead cur b thr r),
          i + ((b - cur).toNat + (B.toNat - 1)) / B.toNat) := by
  intro fuel
  induction fuel with
  | zero =>
    intro cur t i hfuel
    have hge : b ≤ cur := by omega
    rw [deleteLoop_stop _ _ _ _ _ _ _ (by omega), filter_gcDead_stop _ _ _ _ hge,
      Nat.div_eq_of_lt (by omega), Nat.add_zero]
  | succ fuel ih =>
    intro cur t i hfuel
    by_cases hcur : cur < b
    · rw [deleteLoop_succ _ _ _ _ _ _ _ hcur]
      generalize hmid : (if cur + B - 1 ≥ b then b - 1 else cur + B - 1) + 1 = mid
      have hmid1 : cur < mid := by rw [← hmid]; split <;> omega
      have hmid2 : mid ≤ b := by rw [← hmid]; split <;> omega
      have hmid3 : mid = min (cur + B) b := by rw [← hmid]; split <;> omega
      have hfuel2 : (b - mid).toNat ≤ fuel := by omega
      rw [ih mid (Storage.deleteBatch t cur mid thr) (i + 1) hfuel2]
      unfold Storage.deleteBatch
      rw [List.filter_filter]
      have hfst : List.filter
          (fun a => !Storage.gcDead mid b thr a && !Storage.gcDead cur mid thr a) t =
          List.filter (fun r => !Storage.gcDead cur b thr r) t := by
        apply List.filter_congr
        intro r _
        rw [Bool.and_comm]
        exact gcDead_union cur mid b thr (by omega) (by omega) r
      have hsnd : i + 1 + ((b - mid).toNat + (B.toNat - 1)) / B.toNat =
          i + ((b - cur).toNat + (B.toNat - 1)) / B.toNat := by
        have hsub : (b - mid).toNat = (b - cur).toNat - B.toNat := by omega
        rw [hsub]
        have := ceil_step (b - cur).toNat B.toNat (by omega) (by omega)
        omega
      rw [hfst, hsnd]
    · rw [deleteLoop_stop _ _ _ _ _ _ _ hcur, filter_gcDead_stop _ _ _ _ (by omega),
        Nat.div_eq_of_lt (by omega), Nat.add_zero]

/-! ## Claim C6 -/

/-- Claim C6: for every threshold instant, range `[a, b)` and batch size
`B ≥ 1`, the batched range deletion of `DeleteEntriesBeforeWithSleep`
deletes exactly the rows with `a ≤ id < b` and `last_accessed_at <
threshold` — the surviving table is the single-pass filter keeping every
other row — and in particular every row with `id ≥ b` survives even when
its last access is older than the threshold (the end bound is
exclusive). -/
theorem c6_deleteRange_exact (t : Storage.Table) (a b B thr : Int)
    (hB : 1 ≤ B) :
    Storage.DeleteEntriesBefore t thr a b B =
      some (t.filter (fun r => !Storage.gcDead a b thr r),
        ((b - a).toNat + (B.toNat - 1)) / B.toNat) ∧
    (∀ r ∈ t, b ≤ r.id →
      r ∈ t.filter (fun r => !Storage.gcDead a b thr r)) := by
  constructor
  · rw [Storage.DeleteEntriesBefore,
      deleteLoop_spec B thr b hB (b - a).toNat a t 0 le_rfl, Nat.zero_add]
  · intro r hr hid
    apply List.mem_filter.mpr
    refine ⟨hr, ?_⟩
    simp only [Storage.gcDead, Bool.not_eq_true', Bool.and_eq_false_iff,
      decide_eq_false_iff_not]
    omega

/-- Witness for C6, the spec's GC scenario: threshold 50, range `[1, 4)`,
batch 1000 — exactly rows 1–3 are deleted; rows 4 and 5 survive despite
being old (out of range), as do all younger rows. -/
theorem c6_deleteRange_exact_witness :
    Storage.DeleteEntriesBefore gcScenarioTable 50 1 4 1000 =
      some ([⟨4, "h", "m", 0, "c", 0, 0⟩, ⟨5, "h", "m", 0, "c", 0, 0⟩,
        ⟨6, "h", "m", 0, "c", 0, 100⟩, ⟨7, "h", "m", 0, "c", 0, 100⟩,
        ⟨8, "h", "m", 0, "c", 0, 100⟩, ⟨9, "h", "m", 0, "c", 0, 100⟩,
        ⟨10, "h", "m", 0, "c", 0, 100⟩], 1) :=
  ((c6_deleteRange_exact gcScenarioTable 1 4 1000 50 (by norm_num)).1).trans
    (by decide)

/-! ## Claim C10 -/

/-- Claim C10: for `startID < endID` and `batchSize ≥ 1` the GC batching
loop terminates after exactly `⌈(endID - startID) / batchSize⌉`
iterations, each iteration advancing the cursor by exactly
`min(batchSize, endID - cursor)`; and the `batchSize ≥ 1` precondition
is never validated by the function itself — with `batchSize = 0` the
loop never terminates (it reports fuel exhaustion for every fuel). -/
theorem c10_gc_termination :
    (∀ (t : Storage.Table) (a b B thr : Int), 1 ≤ B →
      Storage.deleteLoop B thr b (b - a).toNat t a 0 =
        some (t.filter (fun r => !Storage.gcDead a b thr r),
          ((b - a).toNat + (B.toNat - 1)) / B.toNat)) ∧
    (∀ (t : Storage.Table) (a b B thr : Int) (fuel : Nat) (i : Nat),
      a < b →
      Storage.deleteLoop B thr b (fuel + 1) t a i =
        Storage.deleteLoop B thr b fuel
          (Storage.deleteBatch t a (a + min B (b - a)) thr)
          (a + min B (b - a)) (i + 1)) ∧
    (∀ (t : Storage.Table) (a b thr : Int) (fuel : Nat) (i : Nat),
      a < b → Storage.deleteLoop 0 thr b fuel t a i = none) := by
  refine ⟨?_, ?_, ?_⟩
  · intro t a b B thr hB
    rw [deleteLoop_spec B thr b hB (b - a).toNat a t 0 le_rfl, Nat.zero_add]
  · intro t a b B thr fuel i hab
    rw [deleteLoop_succ _ _ _ _ _ _ _ hab]
    have harith : (if a + B - 1 ≥ b then b - 1 else a + B - 1) + 1 =
        a + min B (b - a) := by
      split <;> omega
    rw [harith]
  · intro t a b thr fuel i hab
    induction fuel generalizing t i with
    | zero => exact deleteLoop_zero _ _ _ _ _ _ hab
    | succ fuel ih =>
      rw [deleteLoop_succ _ _ _ _ _ _ _ hab]
      have harith : (if a + 0 - 1 ≥ b then b - 1 else a + 0 - 1) + 1 = a := by
        split <;> omega
      rw [harith]
      exact ih _ _

/-- Witness for C10: a three-row table, range `[1, 4)`, batch size 2 —
the loop finishes in `⌈3 / 2⌉ = 2` iterations; one unfolding advances
the cursor from 1 to 3 = 1 + min 2 3; and with batch size 0 the loop is
stuck for (for instance) fuel 5. -/
theorem c10_gc_termination_witness :
    Storage.deleteLoop 2 50 4 3 gcScenarioTable 1 0 =
      some ([⟨4, "h", "m", 0, "c", 0, 0⟩, ⟨5, "h", "m", 0, "c", 0, 0⟩,
        ⟨6, "h", "m", 0, "c", 0, 100⟩, ⟨7, "h", "m", 0, "c", 0, 100⟩,
        ⟨8, "h", "m", 0, "c", 0, 100⟩, ⟨9, "h", "m", 0, "c", 0, 100⟩,
        ⟨10, "h", "m", 0, "c", 0, 100⟩], 2) ∧
    Storage.deleteLoop 2 50 4 3 gcScenarioTable 1 0 =
      Storage.deleteLoop 2 50 4 2
        (Storage.deleteBatch gcScenarioTable 1 (1 + min 2 (4 - 1)) 50)
        (1 + min 2 (4 - 1)) 1 ∧
    Storage.deleteLoop 0 50 4 5 gcScenarioTable 1 0 = none := by
  refine ⟨?_, ?_, ?_⟩
  · exact (c10_gc_termination.1 gcScenarioTable 1 4 2 50 (by norm_num)).trans
      (by decide)
  · exact c10_gc_termination.2.1 gcScenarioTable 1 4 2 50 2 0 (by norm_num)
  · exact c10_gc_termination.2.2 gcScenarioTable 1 4 50 5 0 (by norm_num)

/-! ## Claim C8 -/

/-- The `ON CONFLICT DO UPDATE` branch preserves the key columns, hence
the `keyMatch` predicate. -/
theorem keyMatch_store_update (h m : String) (d : Int) (now : Int)
    (content : String) (r : Storage.Row) :
    Storage.keyMatch h m d
      (if Storage.keyMatch h m d r then
        { r with embeddingData := content, lastAccessedAt := now } else r) =
      Storage.keyMatch h m d r := by
  by_cases hk : Storage.keyMatch h m d r
  · rw [if_pos hk]
    simp [Storage.keyMatch]
  · rw [if_neg hk]

/-- Claim C8: after `StoreEmbedding(h, m, d, c)`, a `GetEmbedding(h, m,
d)` with no intervening write returns exactly content `c` (a hit); and
`GetEmbedding` of a key triple matching no row returns absent
(`sql.ErrNoRows` is mapped to an empty result with a nil error), not an
error. -/
theorem c8_put_get (t : Storage.Table) (h m : String) (d : Int)
    (c : String) (now now2 : Int) :
    (Storage.GetEmbedding (Storage.StoreEmbedding t h m d c now) h m d now2).1 =
      some c ∧
    ((∀ r ∈ t, Storage.keyMatch h m d r = false) →
      (Storage.GetEmbedding t h m d now2).1 = none) := by
  constructor
  · unfold Storage.StoreEmbedding
    by_cases hany : t.any (Storage.keyMatch h m d)
    · rw [if_pos hany]
      obtain ⟨r0, hr0mem, hr0⟩ := List.any_eq_true.mp hany
      unfold Storage.GetEmbedding Storage.selectEmbedding
      rw [List.find?_map]
      have hcomp : (Storage.keyMatch h m d ∘ fun r =>
          if Storage.keyMatch h m d r then
            { r with embeddingData := c, lastAccessedAt := now } else r) =
          Storage.keyMatch h m d := by
        funext r
        exact keyMatch_store_update h m d now c r
      rw [hcomp]
      obtain ⟨r1, hr1⟩ := Option.isSome_iff_exists.mp
        (List.find?_isSome.mpr ⟨r0, hr0mem, hr0⟩)
      have hk1 : Storage.keyMatch h m d r1 = true := List.find?_some hr1
      rw [hr1]
      simp [hk1]
    · rw [if_neg hany]
      unfold Storage.GetEmbedding Storage.selectEmbedding
      rw [List.find?_append]
      have hnone : t.find? (Storage.keyMatch h m d) = none := by
        apply List.find?_eq_none.mpr
        intro r hr
        by_contra hcontra
        exact hany (List.any_eq_true.mpr ⟨r, hr, by simpa using hcontra⟩)
      rw [hnone]
      have hnew : Storage.keyMatch h m d
          ⟨Storage.GetMaxID t + 1, h, m, d, c, now, now⟩ = true := by
        simp [Storage.keyMatch]
      simp [List.find?, hnew]
  · intro hmiss
    unfold Storage.GetEmbedding Storage.selectEmbedding
    have hnone : t.find? (Storage.keyMatch h m d) = none :=
      List.find?_eq_none.mpr (fun r hr => by simp [hmiss r hr])
    rw [hnone]
    rfl

/-- Witness for C8 at a concrete table: store then read back, and a
lookup on an empty table is absent. -/
theorem c8_put_get_witness :
    (Storage.GetEmbedding
        (Storage.StoreEmbedding
          [⟨1, "otherhash", "m", 0, "old", 5, 5⟩] "abc" "m" 0 "v1" 10)
        "abc" "m" 0 11).1 = some "v1" ∧
    (Storage.GetEmbedding ([] : Storage.Table) "abc" "m" 0 11).1 = none :=
  ⟨(c8_put_get [⟨1, "otherhash", "m", 0, "old", 5, 5⟩] "abc" "m" 0 "v1" 10 11).1,
   (c8_put_get [] "abc" "m" 0 "v1" 10 11).2 (by decide)⟩

/-! ## Claim C7 -/

/-- Decoding inverts the alphabet lookup for every six-bit value. -/
theorem sixbit_roundtrip : ∀ n, n < 64 → b64CharVal (sixbitChar n) = some n := by
  decide

/-- No alphabet character is the padding character. -/
theorem sixbitChar_ne_pad : ∀ n, n < 64 → ¬(sixbitChar n = '=') := by
  decide

/-- Base64 decoding inverts base64 encoding on every byte list. -/
theorem b64_roundtrip : ∀ (bs : List Nat), (∀ x ∈ bs, x < 256) →
    b64DecodeChunks (b64EncodeChunks bs) = some bs
  | [], _ => rfl
  | [b1], hbs => by
    have h1 : b1 < 256 := hbs b1 (by simp)
    have e1 := sixbit_roundtrip (b1 / 4) (by omega)
    have e2 := sixbit_roundtrip (b1 % 4 * 16) (by omega)
    simp only [b64EncodeChunks, b64DecodeChunks, e1, e2]
    simp only [if_pos rfl, and_self, if_true]
    have harith : b1 / 4 * 4 + b1 % 4 * 16 / 16 = b1 := by omega
    rw [harith]
  | [b1, b2], hbs => by
    have h1 : b1 < 256 := hbs b1 (by simp)
    have h2 : b2 < 256 := hbs b2 (by simp)
    have e1 := sixbit_roundtrip (b1 / 4) (by omega)
    have e2 := sixbit_roundtrip (b1 % 4 * 16 + b2 / 16) (by omega)
    have e3 := sixbit_roundtrip (b2 % 16 * 4) (by omega)
    have ne3 := sixbitChar_ne_pad (b2 % 16 * 4) (by omega)
    simp only [b64EncodeChunks, b64DecodeChunks, e1, e2, e3, if_neg ne3]
    simp only [if_pos rfl, if_true]
    have ha1 : b1 / 4 * 4 + (b1 % 4 * 16 + b2 / 16) / 16 = b1 := by omega
    have ha2 : (b1 % 4 * 16 + b2 / 16) % 16 * 16 + b2 % 16 * 4 / 4 = b2 := by
      omega
    rw [ha1, ha2]
  | b1 :: b2 :: b3 :: rest, hbs => by
    have h1 : b1 < 256 := hbs b1 (by simp)
    have h2 : b2 < 256 := hbs b2 (by simp)
    have h3 : b3 < 256 := hbs b3 (by simp)
    have ih := b64_roundtrip rest (fun x hx => hbs x (by simp [hx]))
    have e1 := sixbit_roundtrip (b1 / 4) (by omega)
    have e2 := sixbit_roundtrip (b1 % 4 * 16 + b2 / 16) (by omega)
    have e3 := sixbit_roundtrip (b2 % 16 * 4 + b3 / 64) (by omega)
    have e4 := sixbit_roundtrip (b3 % 64) (by omega)
    have ne3 := sixbitChar_ne_pad (b2 % 16 * 4 + b3 / 64) (by omega)
    have ne4 := sixbitChar_ne_pad (b3 % 64) (by omega)
    simp only [b64EncodeChunks, b64DecodeChunks, e1, e2, e3, e4,
      if_neg ne3, if_neg ne4, ih]
    have ha1 : b1 / 4 * 4 + (b1 % 4 * 16 + b2 / 16) / 16 = b1 := by omega
    have ha2 : (b1 % 4 * 16 + b2 / 16) % 16 * 16 +
        (b2 % 16 * 4 + b3 / 64) / 4 = b2 := by omega
    have ha3 : (b2 % 16 * 4 + b3 / 64) % 4 * 64 + b3 % 64 = b3 := by omega
    rw [ha1, ha2, ha3]

/-- Auxiliary: the serialized little-endian bytes of a float32 list. -/
theorem le4Bytes_lt (x : Nat) : ∀ b ∈ le4Bytes x, b < 256 := by
  intro b hb
  simp only [le4Bytes, List.mem_cons, List.not_mem_nil, or_false] at hb
  rcases hb with h | h | h | h <;> (subst h; omega)

/-- All bytes of a serialized float32 list are bytes. -/
theorem floatBytes_lt (v : List Nat) :
    ∀ b ∈ (v.map le4Bytes).flatten, b < 256 := by
  intro b hb
  obtain ⟨l, hl, hbl⟩ := List.mem_flatten.mp hb
  obtain ⟨x, _, hxl⟩ := List.mem_map.mp hl
  exact le4Bytes_lt x b (hxl ▸ hbl)

/-- The serialized byte stream of a float32 list has length `4 · n`. -/
theorem floatBytes_length (v : List Nat) :
    ((v.map le4Bytes).flatten).length = 4 * v.length := by
  induction v with
  | nil => rfl
  | cons x xs ih =>
    simp only [List.map_cons, List.flatten_cons, List.length_append, ih,
      le4Bytes, List.length_cons, List.length_nil]
    omega

/-- Reassembling the little-endian bytes recovers each 32-bit word. -/
theorem leWords_le4 : ∀ (v : List Nat), (∀ x ∈ v, x < 2 ^ 32) →
    leWords ((v.map le4Bytes).flatten) = v
  | [], _ => rfl
  | x :: xs, hv => by
    have hx : x < 2 ^ 32 := hv x (by simp)
    have ih := leWords_le4 xs (fun y hy => hv y (by simp [hy]))
    simp only [List.map_cons, List.flatten_cons, le4Bytes, List.cons_append,
      List.nil_append, List.append_eq, leWords, ih]
    have : x % 256 + x / 2 ^ 8 % 256 * 2 ^ 8 + x / 2 ^ 16 % 256 * 2 ^ 16 +
        x / 2 ^ 24 % 256 * 2 ^ 24 = x := by omega
    rw [this]

/-- Base64-decoding an encoder output, on strings: the `String.mk` /
`String.data` round trip is definitional. -/
theorem base64Decode_encode (bs : List Nat) (h : ∀ x ∈ bs, x < 256) :
    base64Decode (base64Encode bs) = some bs :=
  b64_roundtrip bs h

/-- Claim C7: the vector codec of `internal/util/encoding.go` satisfies

* decode ∘ encode is the identity on float32 vectors, hence
  `encode(decode(b)) = b` for every base64 string `b` produced by the
  encoder;
* decoding an arbitrary well-formed base64 byte stream fails exactly
  when the decoded byte length is not a multiple of 4;
* `encode([0.125, 0.25, 0.5]) = "AAAAPgAAgD4AAAA/"` and
  `encode([0.375, 0.75, 0.875]) = "AADAPgAAQD8AAGA/"` under
  little-endian IEEE-754 float32 serialization (the named bit patterns
  denote exactly those rational values). -/
theorem c7_codec (v : List Nat) (hv : ∀ x ∈ v, x < 2 ^ 32)
    (d : List Nat) (hd : ∀ x ∈ d, x < 256) :
    Base64ToFloat32Slice (Float32ToBase64 v) = some v ∧
    Float32ToBase64 ((Base64ToFloat32Slice (Float32ToBase64 v)).getD []) =
      Float32ToBase64 v ∧
    ((Base64ToFloat32Slice (base64Encode d)).isSome ↔ d.length % 4 = 0) ∧
    Float32ToBase64 [0x3E000000, 0x3E800000, 0x3F000000] = "AAAAPgAAgD4AAAA/" ∧
    Base64ToFloat32Slice ("AAAAPgAAgD4AAAA/") =
      some [0x3E000000, 0x3E800000, 0x3F000000] ∧
    Float32ToBase64 [0x3EC00000, 0x3F400000, 0x3F600000] = "AADAPgAAQD8AAGA/" ∧
    f32Val 0x3E000000 = 1 / 8 ∧ f32Val 0x3E800000 = 1 / 4 ∧
    f32Val 0x3F000000 = 1 / 2 ∧ f32Val 0x3EC00000 = 3 / 8 ∧
    f32Val 0x3F400000 = 3 / 4 ∧ f32Val 0x3F600000 = 7 / 8 := by
  have hrt : Base64ToFloat32Slice (Float32ToBase64 v) = some v := by
    unfold Base64ToFloat32Slice Float32ToBase64
    rw [base64Decode_encode _ (floatBytes_lt v), Option.some_bind]
    rw [if_pos (by rw [floatBytes_length]; omega)]
    rw [leWords_le4 v hv]
  refine ⟨hrt, ?_, ?_, by decide, by decide, by decide, ?_, ?_, ?_, ?_, ?_, ?_⟩
  · rw [hrt]
    exact rfl
  · unfold Base64ToFloat32Slice
    rw [base64Decode_encode _ hd, Option.some_bind]
    by_cases hlen : d.length % 4 = 0
    · rw [if_pos hlen]
      simp [hlen]
    · rw [if_neg hlen]
      simp [hlen]
  · norm_num [f32Val]
  · norm_num [f32Val]
  · norm_num [f32Val]
  · norm_num [f32Val]
  · norm_num [f32Val]
  · norm_num [f32Val]

/-- Witness for C7: round trip on a one-float vector, and failure of
decode on the encoding of a 3-byte stream (length not a multiple of
4). -/
theorem c7_codec_witness :
    Base64ToFloat32Slice (Float32ToBase64 [0x3E000000]) = some [0x3E000000] ∧
    ¬(Base64ToFloat32Slice (base64Encode [0, 1, 2])).isSome :=
  ⟨(c7_codec [0x3E000000] (by decide) [0, 1, 2] (by decide)).1,
   fun hsome => absurd
     ((c7_codec [0x3E000000] (by decide) [0, 1, 2] (by decide)).2.2.1.mp hsome)
     (by decide)⟩

/-! ## Claim C2 -/

/-- Counterexample to claim C2 on the Go implementation: the cache key
hash computed by `InputHashes` for the token-sequence input `[1, 2, 3]`
(JSON numbers arrive as the float64 values 1.0, 2.0, 3.0) is the SHA-1
of their big-endian float64 encodings, which differs from
`SHA1("1,2,3")` in lowercase hex. -/
theorem c2_hash_counterexample :
    InputHashes (.nums [f64bitsOfNat 1, f64bitsOfNat 2, f64bitsOfNat 3]) =
      some ["0d8a0d19dcc39ba49fde0b792f357ea567700466"] ∧
    sha1Hex (utf8Bytes ("1,2,3")) =
      "b85e2d4914e22b5ad3b82b312b3dc405dc17dcb8" ∧
    ("0d8a0d19dcc39ba49fde0b792f357ea567700466" : String) ≠
      "b85e2d4914e22b5ad3b82b312b3dc405dc17dcb8" := by
  refine ⟨by decide, by decide, by decide⟩

/-- Claim C2 as amended: in the Rails implementation
(`EmbeddingTarget#sha1sum`) the cache key hash of a token sequence is
the lowercase hex SHA-1 of the decimal representations joined by a
comma — so the hash of `[1, 2, 3]` is `SHA1("1,2,3")` — while the Go
implementation (`numArrSha1`) hashes the concatenated 8-byte big-endian
IEEE-754 float64 encodings of the tokens instead. -/
theorem c2_hash_amended :
    (∀ ts : List Int, RailsApp.sha1sum (.tokens ts) =
      sha1Hex (utf8Bytes (String.intercalate (",") (ts.map intDecimal)))) ∧
    RailsApp.sha1sum (.tokens [1, 2, 3]) =
      "b85e2d4914e22b5ad3b82b312b3dc405dc17dcb8" ∧
    (∀ ns : List Nat, ¬ns.isEmpty → InputHashes (.nums ns) =
      some [sha1Hex ((ns.map (beBytes 8)).flatten)]) ∧
    bytesToHex (numArrSha1 [f64bitsOfNat 1, f64bitsOfNat 2, f64bitsOfNat 3]) =
      "0d8a0d19dcc39ba49fde0b792f357ea567700466" := by
  refine ⟨fun ts => rfl, by decide, ?_, by decide⟩
  intro ns hns
  simp only [InputHashes, hns, if_false, Bool.false_eq_true]
  rfl

/-- Witness for the amended C2: the Go hash of a singleton token
sequence equals the SHA-1 of its 8-byte big-endian encoding. -/
theorem c2_hash_amended_witness :
    InputHashes (.nums [f64bitsOfNat 1]) =
      some [sha1Hex (([f64bitsOfNat 1].map (beBytes 8)).flatten)] :=
  c2_hash_amended.2.2.1 [f64bitsOfNat 1] (by decide)

/-! ## Unfolding lemmas for the handler core -/

/-- The second components of enumerated pairs are list members. -/
theorem enumFrom_snd_mem {α : Type} :
    ∀ (l : List α) (n : Nat) (p : Nat × α), p ∈ l.enumFrom n → p.2 ∈ l := by
  intro l
  induction l with
  | nil => intro n p hp; simp [List.enumFrom] at hp
  | cons x xs ih =>
    intro n p hp
    simp only [List.enumFrom, List.mem_cons] at hp
    rcases hp with h | h
    · subst h; simp
    · exact List.mem_cons_of_mem x (ih (n + 1) p h)

/-- When every hash is cached, no index is reported missing. -/
theorem missedIndexesOf_nil (cache : String → Option (List Nat))
    (hashes : List String) (hall : ∀ h ∈ hashes, (cache h).isSome) :
    missedIndexesOf cache hashes = [] := by
  unfold missedIndexesOf
  apply List.filterMap_eq_nil_iff.mpr
  intro p hp
  rw [hall p.2 (enumFrom_snd_mem hashes 0 p hp)]
  rfl

/-- Full-hit unfolding of the handler core. -/
theorem handleRequestCore_hit (input : GoInput) (model fmt : String)
    (cache : String → Option (List Nat)) (uD : List EmbeddingData)
    (uU : Usage) (hashes : List String)
    (hh : InputHashes input = some hashes)
    (hm : missedIndexesOf cache hashes = []) :
    handleRequestCore input model fmt cache uD uU =
      some ⟨postProcess fmt hashes (initialDatas cache hashes), ⟨0, 0⟩, []⟩ := by
  unfold handleRequestCore
  rw [hh]
  simp only [hm, List.isEmpty_nil, if_true]

/-- Fill-path unfolding of the handler core: some input missed, the
sub-request was built, and the upstream returned at most as many
embeddings as there were misses. -/
theorem handleRequestCore_miss (input : GoInput) (model fmt : String)
    (cache : String → Option (List Nat)) (uD : List EmbeddingData)
    (uU : Usage) (hashes : List String) (picked : GoInput)
    (hh : InputHashes input = some hashes)
    (hm : ¬(missedIndexesOf cache hashes).isEmpty)
    (hp : PickInputs input (missedIndexesOf cache hashes) = some picked)
    (hlen : ¬uD.length > (missedIndexesOf cache hashes).length) :
    handleRequestCore input model fmt cache uD uU =
      some ⟨postProcess fmt hashes
          (fillDatas (missedIndexesOf cache hashes) uD
            (initialDatas cache hashes)),
        uU, [⟨picked, model, fmt⟩]⟩ := by
  unfold handleRequestCore
  rw [hh]
  simp only [if_neg hm, hp, if_neg hlen]

/-- The handler core fails when `PickInputs` fails. -/
theorem handleRequestCore_pick_fail (input : GoInput) (model fmt : String)
    (cache : String → Option (List Nat)) (uD : List EmbeddingData)
    (uU : Usage) (hashes : List String)
    (hh : InputHashes input = some hashes)
    (hm : ¬(missedIndexesOf cache hashes).isEmpty)
    (hp : PickInputs input (missedIndexesOf cache hashes) = none) :
    handleRequestCore input model fmt cache uD uU = none := by
  unfold handleRequestCore
  rw [hh]
  simp only [if_neg hm, hp]

/-- The handler core panics (modelled `none`) when the upstream returns
more embeddings than there were misses. -/
theorem handleRequestCore_len_fail (input : GoInput) (model fmt : String)
    (cache : String → Option (List Nat)) (uD : List EmbeddingData)
    (uU : Usage) (hashes : List String) (picked : GoInput)
    (hh : InputHashes input = some hashes)
    (hm : ¬(missedIndexesOf cache hashes).isEmpty)
    (hp : PickInputs input (missedIndexesOf cache hashes) = some picked)
    (hlen : uD.length > (missedIndexesOf cache hashes).length) :
    handleRequestCore input model fmt cache uD uU = none := by
  unfold handleRequestCore
  rw [hh]
  simp only [if_neg hm, hp, if_pos hlen]

/-- The handler core fails when `InputHashes` fails. -/
theorem handleRequestCore_hash_fail (input : GoInput) (model fmt : String)
    (cache : String → Option (List Nat)) (uD : List EmbeddingData)
    (uU : Usage) (hh : InputHashes input = none) :
    handleRequestCore input model fmt cache uD uU = none := by
  unfold handleRequestCore
  rw [hh]

/-- Case analysis for a successful handler run: either everything hit
and no upstream call was recorded, or the misses were picked into one
sub-request carrying the client's `encoding_format`. -/
theorem handleRequestCore_cases (input : GoInput) (model fmt : String)
    (cache : String → Option (List Nat)) (uD : List EmbeddingData)
    (uU : Usage) (out : Outcome)
    (h : handleRequestCore input model fmt cache uD uU = some out) :
    ∃ hashes, InputHashes input = some hashes ∧
      ((missedIndexesOf cache hashes = [] ∧ out.upstreamCalls = [] ∧
        out.usage = ⟨0, 0⟩) ∨
       (missedIndexesOf cache hashes ≠ [] ∧
        ∃ picked, PickInputs input (missedIndexesOf cache hashes) = some picked ∧
          out.upstreamCalls = [⟨picked, model, fmt⟩] ∧ out.usage = uU)) := by
  cases hh : InputHashes input with
  | none => rw [handleRequestCore_hash_fail input model fmt cache uD uU hh] at h
            exact absurd h (by simp)
  | some hashes =>
    refine ⟨hashes, rfl, ?_⟩
    by_cases hm : (missedIndexesOf cache hashes).isEmpty
    · left
      have hm' : missedIndexesOf cache hashes = [] := by
        simpa [List.isEmpty_iff] using hm
      rw [handleRequestCore_hit input model fmt cache uD uU hashes hh hm'] at h
      obtain rfl : (⟨postProcess fmt hashes (initialDatas cache hashes),
          ⟨0, 0⟩, []⟩ : Outcome) = out := by injection h
      exact ⟨hm', rfl, rfl⟩
    · right
      refine ⟨by simpa [List.isEmpty_iff] using hm, ?_⟩
      cases hp : PickInputs input (missedIndexesOf cache hashes) with
      | none =>
        rw [handleRequestCore_pick_fail input model fmt cache uD uU hashes
          hh hm hp] at h
        exact absurd h (by simp)
      | some picked =>
        by_cases hlen : uD.length > (missedIndexesOf cache hashes).length
        · rw [handleRequestCore_len_fail input model fmt cache uD uU hashes
            picked hh hm hp hlen] at h
          exact absurd h (by simp)
        · rw [handleRequestCore_miss input model fmt cache uD uU hashes
            picked hh hm hp hlen] at h
          obtain rfl : (⟨postProcess fmt hashes
              (fillDatas (missedIndexesOf cache hashes) uD
                (initialDatas cache hashes)), uU,
              [⟨picked, model, fmt⟩]⟩ : Outcome) = out := by injection h
          exact ⟨picked, rfl, rfl, rfl⟩

/-! ## Unfolding lemmas for the Rails flow -/

/-- When the final vector map covers every target, assembly succeeds. -/
theorem assembleData_isSome (fmt : String) (fm : String → Option RailsApp.RVector)
    (targets : List RailsApp.RTarget)
    (hall : ∀ t ∈ targets, (fm (RailsApp.sha1sum t)).isSome) :
    (RailsApp.assembleData fmt fm targets).isSome := by
  unfold RailsApp.assembleData
  rw [if_pos]
  · rfl
  · apply List.all_eq_true.mpr
    intro e he
    obtain ⟨p, hp, hpe⟩ := List.mem_map.mp he
    have := hall p.2 (enumFrom_snd_mem targets 0 p hp)
    rw [← hpe]
    cases hfm : fm (RailsApp.sha1sum p.2) with
    | none => rw [hfm] at this; exact absurd this (by simp)
    | some v => simp

/-- Rails full-hit unfolding: no unloaded target means no upstream call
and zero usage. -/
theorem doEmbedding_hit (model : String) (dims : Option Int) (fmt : String)
    (targets : List RailsApp.RTarget) (cache : String → Option RailsApp.RVector)
    (uV : List RailsApp.RVector) (uU : Usage)
    (hall : ∀ t ∈ targets, (cache (RailsApp.sha1sum t)).isSome) :
    ∃ out, RailsApp.doEmbedding model dims fmt targets cache uV uU = some out ∧
      out.upstreamCalls = [] ∧ out.usage = ⟨0, 0⟩ := by
  unfold RailsApp.doEmbedding
  have hunl : targets.filter
      (fun t => (cache (RailsApp.sha1sum t)).isNone) = [] := by
    apply List.filter_eq_nil_iff.mpr
    intro t ht
    have hs := hall t ht
    rw [Option.isNone_iff_eq_none]
    intro hnone
    rw [hnone] at hs
    exact absurd hs (by simp)
  rw [hunl]
  simp only [List.isEmpty_nil, if_true]
  obtain ⟨ds, hds⟩ := Option.isSome_iff_exists.mp
    (assembleData_isSome fmt cache targets hall)
  rw [hds]
  exact ⟨_, rfl, rfl, rfl⟩

/-- Every upstream call recorded by the Rails flow is the single
`UpstreamClient#request_body` built from the unloaded targets. -/
theorem doEmbedding_calls (model : String) (dims : Option Int) (fmt : String)
    (targets : List RailsApp.RTarget) (cache : String → Option RailsApp.RVector)
    (uV : List RailsApp.RVector) (uU : Usage) (out : RailsApp.ROutcome)
    (h : RailsApp.doEmbedding model dims fmt targets cache uV uU = some out) :
    out.upstreamCalls = [] ∨
      out.upstreamCalls = [RailsApp.requestBody model dims
        (targets.filter (fun t => (cache (RailsApp.sha1sum t)).isNone))] := by
  unfold RailsApp.doEmbedding at h
  by_cases hunl : (targets.filter
      (fun t => (cache (RailsApp.sha1sum t)).isNone)).isEmpty
  · left
    rw [if_pos hunl] at h
    cases hds : RailsApp.assembleData fmt cache targets with
    | none => rw [hds] at h; exact absurd h (by simp)
    | some ds =>
      rw [hds] at h
      obtain rfl : (⟨ds, ⟨0, 0⟩, []⟩ : RailsApp.ROutcome) = out := by
        simpa using h
      rfl
  · right
    rw [if_neg hunl] at h
    cases hds : RailsApp.assembleData fmt
        (RailsApp.overlay cache
          (((targets.filter (fun t => (cache (RailsApp.sha1sum t)).isNone)).map
            RailsApp.sha1sum).zip uV)) targets with
    | none => rw [hds] at h; exact absurd h (by simp)
    | some ds =>
      rw [hds] at h
      obtain rfl : (⟨ds, uU, [RailsApp.requestBody model dims
          (targets.filter (fun t => (cache (RailsApp.sha1sum t)).isNone))]⟩ :
          RailsApp.ROutcome) = out := by
        simpa using h
      rfl

/-! ## Claim C3 -/

/-- Claim C3: a request whose every logical input is already cached
makes zero upstream calls and reports usage `{prompt_tokens: 0,
total_tokens: 0}` — in the Go handler (the outcome is the cache-only
assembly with empty call list and zero usage) and in the Rails flow. -/
theorem c3_full_hit_zero_usage :
    (∀ (input : GoInput) (model fmt : String)
      (cache : String → Option (List Nat)) (uD : List EmbeddingData)
      (uU : Usage) (hashes : List String),
      InputHashes input = some hashes →
      (∀ h ∈ hashes, (cache h).isSome) →
      handleRequestCore input model fmt cache uD uU =
        some ⟨postProcess fmt hashes (initialDatas cache hashes), ⟨0, 0⟩, []⟩) ∧
    (∀ (model : String) (dims : Option Int) (fmt : String)
      (targets : List RailsApp.RTarget)
      (cache : String → Option RailsApp.RVector)
      (uV : List RailsApp.RVector) (uU : Usage),
      (∀ t ∈ targets, (cache (RailsApp.sha1sum t)).isSome) →
      ∃ out, RailsApp.doEmbedding model dims fmt targets cache uV uU = some out ∧
        out.upstreamCalls = [] ∧ out.usage = ⟨0, 0⟩) := by
  constructor
  · intro input model fmt cache uD uU hashes hh hall
    exact handleRequestCore_hit input model fmt cache uD uU hashes hh
      (missedIndexesOf_nil cache hashes hall)
  · intro model dims fmt targets cache uV uU hall
    exact doEmbedding_hit model dims fmt targets cache uV uU hall

/-- Witness for C3: a single-string request whose hash is cached makes
no upstream call and reports zero usage. -/
theorem c3_full_hit_zero_usage_witness :
    handleRequestCore (.str ("A")) ("text-embedding-ada-002") ("")
      (fun h => if h = "6dcd4ce23d88e2ee9568ba546c007c63d9131c1b"
        then some [1] else none) [] ⟨0, 0⟩ =
      some ⟨postProcess ("") ["6dcd4ce23d88e2ee9568ba546c007c63d9131c1b"]
        (initialDatas
          (fun h => if h = "6dcd4ce23d88e2ee9568ba546c007c63d9131c1b"
            then some [1] else none)
          ["6dcd4ce23d88e2ee9568ba546c007c63d9131c1b"]), ⟨0, 0⟩, []⟩ :=
  c3_full_hit_zero_usage.1 (.str ("A")) ("text-embedding-ada-002") ("")
    (fun h => if h = "6dcd4ce23d88e2ee9568ba546c007c63d9131c1b"
      then some [1] else none) [] ⟨0, 0⟩
    ["6dcd4ce23d88e2ee9568ba546c007c63d9131c1b"] (by decide) (by decide)

/-! ## Claim C5 -/

/-- Counterexample to claim C5 on the Go handler of `part_023`: a
cache-missing request with client `encoding_format = "float"` issues its
single upstream call with `encoding_format = "float"`, not
`"base64"`. -/
theorem c5_counterexample :
    (handleRequestCore (.str ("Hello")) ("text-embedding-ada-002") ("float")
        (fun _ => none) [⟨"embedding", .floats [0], 0⟩] ⟨1, 1⟩).map
      (fun o => o.upstreamCalls.map (fun c => c.encodingFormat)) =
      some ["float"] ∧
    ("float" : String) ≠ "base64" :=
  ⟨by decide, by decide⟩

/-- Claim C5 as amended: the Rails upstream client always serializes
`encoding_format = "base64"` regardless of the client's requested
format, while the Go `part_023` handler forwards the client's
`encoding_format` verbatim in the upstream sub-request. -/
theorem c5_amended :
    (∀ (model : String) (dims : Option Int) (fmtClient : String)
      (targets : List RailsApp.RTarget)
      (cache : String → Option RailsApp.RVector)
      (uV : List RailsApp.RVector) (uU : Usage) (out : RailsApp.ROutcome),
      RailsApp.doEmbedding model dims fmtClient targets cache uV uU = some out →
      ∀ b ∈ out.upstreamCalls, b.encodingFormat = "base64") ∧
    (∀ (model : String) (dims : Option Int)
      (targets : List RailsApp.RTarget),
      (RailsApp.requestBody model dims targets).encodingFormat = "base64") ∧
    (∀ (input : GoInput) (model fmt : String)
      (cache : String → Option (List Nat)) (uD : List EmbeddingData)
      (uU : Usage) (out : Outcome),
      handleRequestCore input model fmt cache uD uU = some out →
      ∀ c ∈ out.upstreamCalls, c.encodingFormat = fmt) := by
  refine ⟨?_, fun model dims targets => rfl, ?_⟩
  · intro model dims fmtClient targets cache uV uU out h b hb
    rcases doEmbedding_calls model dims fmtClient targets cache uV uU out h with
      hc | hc
    · rw [hc] at hb; exact absurd hb (by simp)
    · rw [hc] at hb
      rw [List.mem_singleton.mp hb]
      rfl
  · intro input model fmt cache uD uU out h c hc
    obtain ⟨hashes, _, hcase⟩ :=
      handleRequestCore_cases input model fmt cache uD uU out h
    rcases hcase with ⟨_, hcalls, _⟩ | ⟨_, picked, _, hcalls, _⟩
    · rw [hcalls] at hc; exact absurd hc (by simp)
    · rw [hcalls] at hc
      rw [List.mem_singleton.mp hc]

/-- Witness for the amended C5: concrete Rails fill with client format
`"float"` still posts `"base64"`, and the Go `part_023` handler posts
the client's `"float"`. -/
theorem c5_amended_witness :
    (RailsApp.requestBody ("text-embedding-ada-002") none
      [.str ("Hello")]).encodingFormat = "base64" ∧
    (∀ c ∈ ([⟨.str ("Hello"), "text-embedding-ada-002", "float"⟩] :
        List UpstreamCall), c.encodingFormat = "float") :=
  ⟨c5_amended.2.1 ("text-embedding-ada-002") none [.str ("Hello")],
   c5_amended.2.2 (.str ("Hello")) ("text-embedding-ada-002") ("float")
     (fun _ => none) [⟨"embedding", .floats [0], 0⟩] ⟨1, 1⟩
     ⟨[⟨"embedding", .floats [0], 0⟩], ⟨1, 1⟩,
       [⟨.str ("Hello"), "text-embedding-ada-002", "float"⟩]⟩ (by decide)⟩

/-! ## Claim C4 -/

/-- Selecting only valid indices always succeeds and returns the
elements at those indices in index order. -/
theorem pickList_map_getD {α : Type} (d : α) :
    ∀ (xs : List α) (ts : List Nat), (∀ t ∈ ts, t < xs.length) →
      pickList xs ts = some (ts.map (fun t => xs.getD t d)) := by
  intro xs ts
  induction ts with
  | nil => intro; rfl
  | cons t ts ih =>
    intro hv
    have ht : t < xs.length := hv t (by simp)
    have hget : xs.get? t = some (xs.getD t d) := by
      rw [List.getD_eq_getElem?_getD, List.get?_eq_getElem?,
        List.getElem?_eq_getElem ht]
      rfl
    simp only [pickList, hget, ih (fun u hu => hv u (by simp [hu])),
      List.map_cons]

/-- Enumerated form of the missed-index computation with an arbitrary
starting index. -/
theorem missed_enumFrom_eq (cache : String → Option (List Nat)) :
    ∀ (hs : List String) (n : Nat),
      (hs.enumFrom n).filterMap
          (fun p => if (cache p.2).isSome then none else some p.1) =
        ((List.range hs.length).filter
          (fun i => ((hs.get? i).bind cache).isNone)).map (n + ·) := by
  intro hs
  induction hs with
  | nil => intro n; rfl
  | cons x xs ih =>
    intro n
    have hshift : ∀ (l : List Nat),
        (l.map Nat.succ).map (n + ·) = l.map (n + 1 + ·) := by
      intro l
      rw [List.map_map]
      congr 1
      funext i
      simp only [Function.comp_apply]
      omega
    simp only [List.enumFrom, List.filterMap_cons, List.length_cons,
      List.range_succ_eq_map, List.filter_cons, List.filter_map]
    have hpred : ((fun i => (((x :: xs).get? i).bind cache).isNone) ∘
        Nat.succ) = (fun i => ((xs.get? i).bind cache).isNone) := by
      funext i
      rfl
    rw [hpred, ih (n + 1)]
    cases hc : cache x with
    | none =>
      simp only [Option.isSome_none, Bool.false_eq_true, if_false,
        List.get?_cons_zero, Option.some_bind, hc, Option.isNone_none,
        if_true, List.map_cons, hshift]
      norm_num
    | some v =>
      simp only [Option.isSome_some, if_true, List.get?_cons_zero,
        Option.some_bind, hc, Option.isNone_some, Bool.false_eq_true,
        if_false, hshift]

/-- The missed-index list is exactly the increasing list of input
positions whose hash is absent from the cache. -/
theorem missedIndexesOf_eq_range_filter (cache : String → Option (List Nat)) :
    ∀ (hashes : List String),
      missedIndexesOf cache hashes =
        (List.range hashes.length).filter
          (fun i => ((hashes.get? i).bind cache).isNone) := by
  intro hashes
  show (hashes.enumFrom 0).filterMap _ = _
  rw [missed_enumFrom_eq cache hashes 0]
  have : ((0 : Nat) + ·) = fun i : Nat => i := by
    funext i
    omega
  rw [this, List.map_id']

/-- Counterexample to claim C4 on the Rails implementation: a request
whose `input` is the bare string `"Hello"` (one logical input, missed)
produces an upstream body whose `input` is the one-element JSON array
`["Hello"]`, not the original bare-string shape. -/
theorem c4_counterexample :
    RailsApp.buildTargets (.str ("Hello")) = some [.str ("Hello")] ∧
    (RailsApp.doEmbedding ("text-embedding-ada-002") none ("float")
        [.str ("Hello")] (fun _ => none) [[62, 0, 0, 0]] ⟨1, 1⟩).map
      (fun o => o.upstreamCalls.map (fun b => b.input)) =
      some [RailsApp.Json.arr [RailsApp.Json.str ("Hello")]] ∧
    RailsApp.Json.arr [RailsApp.Json.str ("Hello")] ≠
      RailsApp.Json.str ("Hello") :=
  ⟨rfl, rfl, fun h => RailsApp.Json.noConfusion h⟩

/-- Claim C4 as amended: whenever at least one logical input misses the
cache, exactly one upstream request is issued and its input consists of
exactly the missed logical inputs in their original relative order (the
missed indices are the increasing list of cache-miss positions); the Go
implementation preserves the original JSON shape (a bare string or
single token sequence stays bare, arrays stay arrays of the same kind),
while the Rails implementation always sends a JSON array with one
element per missed logical input. -/
theorem c4_amended :
    (∀ (input : GoInput) (model fmt : String)
      (cache : String → Option (List Nat)) (uD : List EmbeddingData)
      (uU : Usage) (hashes : List String) (out : Outcome),
      InputHashes input = some hashes →
      handleRequestCore input model fmt cache uD uU = some out →
      (missedIndexesOf cache hashes = [] → out.upstreamCalls = []) ∧
      (missedIndexesOf cache hashes ≠ [] →
        ∃ picked, PickInputs input (missedIndexesOf cache hashes) = some picked ∧
          out.upstreamCalls = [⟨picked, model, fmt⟩])) ∧
    (∀ (cache : String → Option (List Nat)) (hashes : List String),
      missedIndexesOf cache hashes =
        (List.range hashes.length).filter
          (fun i => ((hashes.get? i).bind cache).isNone)) ∧
    (∀ (ss : List String) (ts : List Nat), (∀ t ∈ ts, t < ss.length) →
      PickInputs (.strs ss) ts =
        some (.strs (ts.map (fun t => ss.getD t "")))) ∧
    (∀ (nss : List (List Nat)) (ts : List Nat), (∀ t ∈ ts, t < nss.length) →
      PickInputs (.numss nss) ts =
        some (.numss (ts.map (fun t => nss.getD t [])))) ∧
    (∀ s, PickInputs (.str s) [0] = some (.str s)) ∧
    (∀ ns, PickInputs (.nums ns) [0] = some (.nums ns)) ∧
    (∀ (model : String) (dims : Option Int) (fmt : String)
      (targets : List RailsApp.RTarget)
      (cache : String → Option RailsApp.RVector)
      (uV : List RailsApp.RVector) (uU : Usage) (out : RailsApp.ROutcome),
      RailsApp.doEmbedding model dims fmt targets cache uV uU = some out →
      ∀ b ∈ out.upstreamCalls,
        b.input = .arr ((targets.filter
          (fun t => (cache (RailsApp.sha1sum t)).isNone)).map
            RailsApp.targetToHash)) := by
  refine ⟨?_, missedIndexesOf_eq_range_filter, ?_, ?_, ?_, ?_, ?_⟩
  · intro input model fmt cache uD uU hashes out hh h
    obtain ⟨hashes2, hh2, hcase⟩ :=
      handleRequestCore_cases input model fmt cache uD uU out h
    rw [hh] at hh2
    obtain rfl : hashes = hashes2 := by injection hh2
    rcases hcase with ⟨hm, hcalls, _⟩ | ⟨hm, picked, hp, hcalls, _⟩
    · exact ⟨fun _ => hcalls, fun hne => absurd hm hne⟩
    · exact ⟨fun heq => absurd heq hm, fun _ => ⟨picked, hp, hcalls⟩⟩
  · intro ss ts hv
    simp only [PickInputs]
    rw [pickList_map_getD "" ss ts hv]
    rfl
  · intro nss ts hv
    simp only [PickInputs]
    rw [pickList_map_getD [] nss ts hv]
    rfl
  · intro s
    rfl
  · intro ns
    rfl
  · intro model dims fmt targets cache uV uU out h b hb
    rcases doEmbedding_calls model dims fmt targets cache uV uU out h with
      hc | hc
    · rw [hc] at hb; exact absurd hb (by simp)
    · rw [hc] at hb
      rw [List.mem_singleton.mp hb]
      rfl

/-- Witness for the amended C4: picking the missed indices 0 and 2 from
a three-string array yields exactly those strings in order, in the same
array shape. -/
theorem c4_amended_witness :
    PickInputs (.strs ["a", "b", "c"]) [0, 2] =
      some (.strs (([0, 2] : List Nat).map
        (fun t => (["a", "b", "c"] : List String).getD t ""))) :=
  c4_amended.2.2.1 ["a", "b", "c"] [0, 2] (by decide)

/-! ## Claim C1 -/

/-- Claim C1 fails on the Go `part_023` handler: with inputs
`["A", "B"]`, `"A"` cached and `"B"` missed, the upstream returns the
single missing embedding with its sub-request index 0, and the handler
stores it verbatim — the assembled response carries the embedding
contents in correct input order, but `data[1].index = 0`, not 1. -/
theorem c1_index_bug :
    (handleRequestCore (.strs ["A", "B"]) ("text-embedding-ada-002") ("")
        (fun h => if h = "6dcd4ce23d88e2ee9568ba546c007c63d9131c1b"
          then some [1] else none)
        [⟨"embedding", .floats [2], 0⟩] ⟨7, 7⟩).map
      (fun o => (o.data.map (fun d => d.index),
        o.data.map (fun d => d.embedding))) =
      some ([0, 0], [.floats [1], .floats [2]]) ∧
    ([0, 0] : List Nat) ≠ [0, 1] :=
  ⟨by decide, by decide⟩

/-! ## Claim C9 -/

/-- Claim C9 fails on the Rails controller: the `dimensions` validation
declared by `EmbeddingForm` (only integers strictly between 1 and
10000, nil allowed) correctly rejects `dimensions = 0`, but
`V1::EmbeddingsController#create` never calls `valid?` — a request with
`dimensions = 0` proceeds to the lookup/fill flow, issues an upstream
call, and renders a 200 response instead of a 400. -/
theorem c9_dimensions_not_validated :
    RailsApp.dimensionsValid (some 0) = false ∧
    RailsApp.formValid ("text-embedding-ada-002") (some 0) none = false ∧
    RailsApp.okUpstreamCount
      (RailsApp.createAction (some ("sk-abc")) ("text-embedding-ada-002")
        (some 0) none (.str ("hello")) (fun _ => none)
        [[62, 0, 0, 0]] ⟨1, 1⟩) = some 1 :=
  ⟨rfl, by decide, rfl⟩

end Cachembed
